import Mathlib

/-!
Verification of the pitch-detection core of the Muizc-Rocks repository
(`src/audio/pitch-detector.js`).

The JavaScript class `PitchDetector` is embedded shallowly:

* JS numbers are modelled as exact rationals (`ℚ`); sample buffers are
  `List ℚ`.
* The mutable object is the structure `PitchDetector`; each method becomes a
  function that returns the updated structure together with its return value.
* `autoCorrelate` returns `-1` when no pitch is detected, exactly like the
  source (the sentinel, not an `Option`, because `detectPitch` relies on
  `-1 < 60` to take the reset branch).
* The source computes `rms = Math.sqrt(sum / SIZE)` and tests
  `rms < rmsThreshold`.  Over the rationals the square root is not available,
  so the gate is embedded as `0 < rmsThreshold ∧ sum / SIZE < rmsThreshold ^ 2`,
  which is equivalent for every real threshold; the lemma
  `autoCorrelate_sqrt_gate` below proves that the embedded function equals the
  literal square-root formulation.
-/

/-- The `audioContext` constructor argument.  The detector never reads it; it
is kept as an abstract handle so that independence of the output from the
audio context is a provable statement rather than a modelling assumption. -/
abbrev AudioContextHandle := ℕ

/-- The fields of the JS `PitchDetector` object: the two constructor
arguments, the rolling pitch history, and the five tunable thresholds
(with their constructor defaults 5, 10, 0.05, 0.92, 0.05). -/
structure PitchDetector where
  audioContext : AudioContextHandle
  sampleRate : ℚ
  pitchHistory : List ℚ
  historySize : ℕ
  pitchTolerance : ℚ
  rmsThreshold : ℚ
  correlationThreshold : ℚ
  minCorrelationQuality : ℚ

/-- The constructor: stores `audioContext` and `sampleRate` and installs the
default smoothing parameters (`historySize = 5`, `pitchTolerance = 10`,
`rmsThreshold = 0.05`, `correlationThreshold = 0.92`,
`minCorrelationQuality = 0.05`). -/
def PitchDetector.init (audioContext : AudioContextHandle) (sampleRate : ℚ) :
    PitchDetector :=
  { audioContext := audioContext
    sampleRate := sampleRate
    pitchHistory := []
    historySize := 5
    pitchTolerance := 10
    rmsThreshold := 1/20
    correlationThreshold := 23/25
    minCorrelationQuality := 1/20 }

/-- Mean of the squares of the samples: the `rms` accumulation loop of
`autoCorrelate` divided by `SIZE` (the source then takes the square root,
which we keep squared; see `autoCorrelate_sqrt_gate`). -/
def rmsSq (buffer : List ℚ) : ℚ :=
  (buffer.foldl (fun acc v => acc + v * v) 0) / (buffer.length : ℚ)

/-- The inner correlation loop of `autoCorrelate`:
`Σ_{i=0}^{maxSamples-1} |buffer[i] - buffer[i + offset]|`. -/
def corrAt (buffer : List ℚ) (maxSamples offset : ℕ) : ℚ :=
  ((List.range maxSamples).map
    (fun i => |buffer.getD i 0 - buffer.getD (i + offset) 0|)).sum

/-- The correlation score at one lag: `1 - corrAt / maxSamples`. -/
def scoreAt (buffer : List ℚ) (maxSamples offset : ℕ) : ℚ :=
  1 - corrAt buffer maxSamples offset / (maxSamples : ℚ)

/-- The lag offsets visited by the search loop
`for (let offset = 1; offset < MAX_SAMPLES; offset++)`:
the list `[1, 2, …, maxSamples - 1]`. -/
def offsetsSearched (maxSamples : ℕ) : List ℕ :=
  List.range' 1 (maxSamples - 1)

/-- One iteration of the search loop.  The running state is
`(bestOffset, bestCorrelation, lastCorrelation)`, seeded `(-1, 0, 1)`.
When the score exceeds both `correlationThreshold` and `lastCorrelation`,
the rising step `correlation - lastCorrelation` competes for
`bestCorrelation`; `lastCorrelation` is updated every iteration. -/
def searchStep (correlationThreshold : ℚ) (buffer : List ℚ) (maxSamples : ℕ)
    (st : ℤ × ℚ × ℚ) (offset : ℕ) : ℤ × ℚ × ℚ :=
  let correlation := scoreAt buffer maxSamples offset
  if correlation > correlationThreshold ∧ correlation > st.2.2 then
    if correlation - st.2.2 > st.2.1 then
      ((offset : ℤ), correlation - st.2.2, correlation)
    else (st.1, st.2.1, correlation)
  else (st.1, st.2.1, correlation)

/-- Everything `autoCorrelate` does after the silence gate: run the search
loop, reject a missing (`bestOffset = -1`) or weak
(`bestCorrelation < minCorrelationQuality`) result, otherwise convert the
offset to a frequency `sampleRate / bestOffset`. -/
def correlationSearch (d : PitchDetector) (buffer : List ℚ) : ℚ :=
  let maxSamples := buffer.length / 2
  let st := (offsetsSearched maxSamples).foldl
      (searchStep d.correlationThreshold buffer maxSamples) (-1, 0, 1)
  if st.1 = -1 then -1
  else if st.2.1 < d.minCorrelationQuality then -1
  else d.sampleRate / (st.1 : ℚ)

/-- `autoCorrelate`: silence gate (`rms < rmsThreshold`, embedded squared)
followed by the correlation search.  Returns `-1` when no pitch is found. -/
def autoCorrelate (d : PitchDetector) (buffer : List ℚ) : ℚ :=
  if 0 < d.rmsThreshold ∧ rmsSq buffer < d.rmsThreshold ^ 2 then -1
  else correlationSearch d buffer

/-- The plausibility test of `detectPitch`:
`frequency < 60 || frequency > 1000`. -/
def outsideRange (frequency : ℚ) : Prop :=
  frequency < 60 ∨ frequency > 1000

instance (frequency : ℚ) : Decidable (outsideRange frequency) :=
  inferInstanceAs (Decidable (frequency < 60 ∨ frequency > 1000))

/-- The history update of `detectPitch`: `push` the new frequency, then
`shift` (drop the oldest entry) when the length exceeds `historySize`. -/
def pushHist (history : List ℚ) (historySize : ℕ) (frequency : ℚ) : List ℚ :=
  let h := history ++ [frequency]
  if historySize < h.length then h.tail else h

/-- Arithmetic mean of a history (used to state the consistency claims;
the source divides by `historySize`, which coincides with the mean exactly
when the history holds `historySize` entries). -/
def histMean (history : List ℚ) : ℚ :=
  history.sum / (history.length : ℚ)

/-- `detectPitch`: run `autoCorrelate`; an implausible frequency clears the
history and yields `null`; otherwise the frequency is pushed (with FIFO
eviction), `null` is returned while the history is short, and once the
history is full the average is returned when every entry is within
`pitchTolerance` of it. -/
def detectPitch (d : PitchDetector) (dataArray : List ℚ) :
    PitchDetector × Option ℚ :=
  let frequency := autoCorrelate d dataArray
  if outsideRange frequency then
    ({ d with pitchHistory := [] }, none)
  else
    let hist := pushHist d.pitchHistory d.historySize frequency
    if hist.length < d.historySize then
      ({ d with pitchHistory := hist }, none)
    else
      let avgFreq := hist.sum / (d.historySize : ℚ)
      if ∀ freq ∈ hist, |freq - avgFreq| < d.pitchTolerance then
        ({ d with pitchHistory := hist }, some avgFreq)
      else
        ({ d with pitchHistory := hist }, none)

/-- `reset()`: clear the pitch history. -/
def PitchDetector.reset (d : PitchDetector) : PitchDetector :=
  { d with pitchHistory := [] }

/-- The `settings` argument of `setSensitivity`: each field is optional,
mirroring the `!== undefined` tests of the source. -/
structure Settings where
  historySize : Option ℕ := none
  pitchTolerance : Option ℚ := none
  rmsThreshold : Option ℚ := none
  correlationThreshold : Option ℚ := none
  minCorrelationQuality : Option ℚ := none

/-- `setSensitivity(settings)`: overwrite each supplied field, then
`reset()`.  The source performs no validation of the supplied values. -/
def setSensitivity (d : PitchDetector) (s : Settings) : PitchDetector :=
  let d1 := match s.historySize with
    | some v => { d with historySize := v } | none => d
  let d2 := match s.pitchTolerance with
    | some v => { d1 with pitchTolerance := v } | none => d1
  let d3 := match s.rmsThreshold with
    | some v => { d2 with rmsThreshold := v } | none => d2
  let d4 := match s.correlationThreshold with
    | some v => { d3 with correlationThreshold := v } | none => d3
  let d5 := match s.minCorrelationQuality with
    | some v => { d4 with minCorrelationQuality := v } | none => d4
  d5.reset

/-- Feeding a sequence of frames through the detector, collecting the
returned estimates. -/
def run (d : PitchDetector) : List (List ℚ) → List (Option ℚ)
  | [] => []
  | b :: bs => (detectPitch d b).2 :: run (detectPitch d b).1 bs

/-- The history produced by one `detectPitch` call (cleared on an
implausible reading, pushed otherwise). -/
def newHistory (d : PitchDetector) (buffer : List ℚ) : List ℚ :=
  if outsideRange (autoCorrelate d buffer) then []
  else pushHist d.pitchHistory d.historySize (autoCorrelate d buffer)

/-!  Spec-side variant of the lag search, for comparison with the code.
The spec prescribes lag offsets `k = 1 .. N/2` inclusive; the following two
definitions follow the spec's words and differ from `correlationSearch` /
`autoCorrelate` only in the offset list. -/

/-- Follows the spec's words: lag offsets `k = 1 .. N/2` inclusive. -/
def offsetsSpec (maxSamples : ℕ) : List ℕ :=
  List.range' 1 maxSamples

/-- Follows the spec's words: the correlation search over `offsetsSpec`. -/
def correlationSearchSpec (d : PitchDetector) (buffer : List ℚ) : ℚ :=
  let maxSamples := buffer.length / 2
  let st := (offsetsSpec maxSamples).foldl
      (searchStep d.correlationThreshold buffer maxSamples) (-1, 0, 1)
  if st.1 = -1 then -1
  else if st.2.1 < d.minCorrelationQuality then -1
  else d.sampleRate / (st.1 : ℚ)

/-- Follows the spec's words: `autoCorrelate` with the inclusive lag range. -/
def autoCorrelateSpec (d : PitchDetector) (buffer : List ℚ) : ℚ :=
  if 0 < d.rmsThreshold ∧ rmsSq buffer < d.rmsThreshold ^ 2 then -1
  else correlationSearchSpec d buffer

/-!  Basic structural lemmas. -/

lemma update_pitchHistory (d : PitchDetector) (h : List ℚ) :
    ({ d with pitchHistory := h } : PitchDetector).pitchHistory = h := rfl

lemma update_historySize (d : PitchDetector) (h : List ℚ) :
    ({ d with pitchHistory := h } : PitchDetector).historySize =
      d.historySize := rfl

lemma autoCorrelate_pitchHistory (d : PitchDetector) (h : List ℚ)
    (buffer : List ℚ) :
    autoCorrelate { d with pitchHistory := h } buffer =
      autoCorrelate d buffer := rfl

lemma run_cons (d : PitchDetector) (b : List ℚ) (bs : List (List ℚ)) :
    run d (b :: bs) = (detectPitch d b).2 :: run (detectPitch d b).1 bs := rfl

lemma detectPitch_state (d : PitchDetector) (buffer : List ℚ) :
    (detectPitch d buffer).1 = { d with pitchHistory := newHistory d buffer } := by
  simp only [detectPitch, newHistory]
  split_ifs <;> rfl

lemma pushHist_length_le (h : List ℚ) (n : ℕ) (f : ℚ) :
    (pushHist h n f).length ≤ h.length + 1 := by
  simp only [pushHist]
  split_ifs <;> simp

lemma pushHist_length_cap (h : List ℚ) (n : ℕ) (f : ℚ)
    (hle : h.length ≤ n) : (pushHist h n f).length ≤ n := by
  simp only [pushHist]
  split_ifs with hlt
  · simpa using hle
  · simp at hlt ⊢
    omega

lemma newHistory_length_le (d : PitchDetector) (buffer : List ℚ) :
    (newHistory d buffer).length ≤ d.pitchHistory.length + 1 := by
  simp only [newHistory]
  split_ifs
  · simp
  · exact pushHist_length_le _ _ _

lemma detectPitch_ne_none {d : PitchDetector} {buffer : List ℚ}
    (h : (detectPitch d buffer).2 ≠ none) :
    ¬ outsideRange (autoCorrelate d buffer) ∧
      d.historySize ≤
        (pushHist d.pitchHistory d.historySize (autoCorrelate d buffer)).length := by
  by_cases h1 : outsideRange (autoCorrelate d buffer)
  · exact absurd (by simp [detectPitch, h1]) h
  · refine ⟨h1, ?_⟩
    by_cases h2 : (pushHist d.pitchHistory d.historySize
        (autoCorrelate d buffer)).length < d.historySize
    · exact absurd (by simp [detectPitch, h1, h2]) h
    · omega

/-!  Concrete inputs used by the witnesses and counterexamples. -/

/-- A period-2 square-ish frame of 8 samples. -/
def buf100 : List ℚ := [1, 0, 1, 0, 1, 0, 1, 0]

/-- A period-4 frame of 8 samples: its fundamental lag is exactly half the
frame length. -/
def buf4 : List ℚ := [1, 0, 0, 0, 1, 0, 0, 0]

/-- A period-2 frame whose root-mean-square energy is exactly `5/7`. -/
def bufRms : List ℚ := [1/7, 1, 1/7, 1, 1/7, 1, 1/7, 1]

/-- A detector with the constructor defaults at sample rate 200. -/
def d200 : PitchDetector := PitchDetector.init 0 200

/-- A detector with the constructor defaults at sample rate 120. -/
def d120 : PitchDetector := PitchDetector.init 1 120

/-- `d200` with `rmsThreshold` raised to exactly the RMS of `bufRms`. -/
def dRms : PitchDetector := { d200 with rmsThreshold := 5/7 }

/-- `d200` with four consistent readings already in the history. -/
def dPre : PitchDetector := { d200 with pitchHistory := [100, 100, 100, 100] }

/-- The raw estimate of `d200` on `buf100`: period 2 at sample rate 200. -/
lemma autoCorrelate_d200_buf100 : autoCorrelate d200 buf100 = 100 := by
  norm_num [autoCorrelate, correlationSearch, offsetsSearched, searchStep,
    scoreAt, corrAt, rmsSq, buf100, d200, PitchDetector.init,
    List.range_succ, List.range']

/-- The raw estimate of `d120` on `buf100`: period 2 at sample rate 120. -/
lemma autoCorrelate_d120_buf100 : autoCorrelate d120 buf100 = 60 := by
  norm_num [autoCorrelate, correlationSearch, offsetsSearched, searchStep,
    scoreAt, corrAt, rmsSq, buf100, d120, PitchDetector.init,
    List.range_succ, List.range']

/-- The five-frame run used by the temporal witness: four `null`s, then the
stable average. -/
lemma run_d200_five : run d200 [buf100, buf100, buf100, buf100, buf100]
    = [none, none, none, none, some 100] := by
  norm_num [run, detectPitch, outsideRange, pushHist,
    autoCorrelate, correlationSearch, offsetsSearched, searchStep,
    scoreAt, corrAt, rmsSq, buf100, d200, PitchDetector.init,
    List.range_succ, List.range']

/-!  Faithfulness of the silence gate.  The source computes
`rms = Math.sqrt(sum / SIZE)` and tests `rms < rmsThreshold`; the embedding
tests `0 < rmsThreshold ∧ rmsSq < rmsThreshold ^ 2`.  These agree for every
rational threshold. -/

lemma rat_sqrt_lt (x t : ℚ) :
    Real.sqrt (x : ℝ) < (t : ℝ) ↔ 0 < t ∧ x < t ^ 2 := by
  constructor
  · intro h
    have ht : (0 : ℝ) < (t : ℝ) := lt_of_le_of_lt (Real.sqrt_nonneg _) h
    have ht' : 0 < t := by exact_mod_cast ht
    have hx : (x : ℝ) < (t : ℝ) ^ 2 := (Real.sqrt_lt' ht).mp h
    exact ⟨ht', by exact_mod_cast hx⟩
  · rintro ⟨ht, hx⟩
    have ht' : (0 : ℝ) < (t : ℝ) := by exact_mod_cast ht
    exact (Real.sqrt_lt' ht').mpr (by exact_mod_cast hx)

open Classical in
lemma autoCorrelate_sqrt_gate (d : PitchDetector) (buffer : List ℚ) :
    autoCorrelate d buffer =
      if Real.sqrt ((rmsSq buffer : ℝ)) < ((d.rmsThreshold : ℝ)) then -1
      else correlationSearch d buffer := by
  rw [autoCorrelate]
  by_cases h : Real.sqrt ((rmsSq buffer : ℝ)) < ((d.rmsThreshold : ℝ))
  · rw [if_pos h, if_pos ((rat_sqrt_lt _ _).mp h)]
  · rw [if_neg h, if_neg (fun hc => h ((rat_sqrt_lt _ _).mpr hc))]

/-!  Behaviour on an all-zero frame. -/

lemma getD_replicate_zero (n i : ℕ) :
    (List.replicate n (0 : ℚ)).getD i 0 = 0 := by
  induction n generalizing i with
  | zero => simp
  | succ n ih =>
    cases i with
    | zero => simp [List.replicate_succ]
    | succ i => simp [List.replicate_succ, ih]

lemma corrAt_replicate_zero (n m k : ℕ) :
    corrAt (List.replicate n 0) m k = 0 := by
  simp [corrAt, getD_replicate_zero]

lemma scoreAt_replicate_zero (n m k : ℕ) :
    scoreAt (List.replicate n 0) m k = 1 := by
  simp [scoreAt, corrAt_replicate_zero]

lemma searchStep_replicate_zero (t : ℚ) (n m k : ℕ) :
    searchStep t (List.replicate n 0) m (-1, 0, 1) k = (-1, 0, 1) := by
  simp [searchStep, scoreAt_replicate_zero]

lemma foldl_searchStep_zero (l : List ℕ) (t : ℚ) (n m : ℕ) :
    l.foldl (searchStep t (List.replicate n 0) m) (-1, 0, 1) = (-1, 0, 1) := by
  induction l with
  | nil => rfl
  | cons k l ih => rw [List.foldl_cons, searchStep_replicate_zero]; exact ih

/-- C6: an all-zero frame never produces a raw estimate, whatever the
configuration.  When the RMS gate fires the sentinel is returned at once;
when it does not fire (for instance `rmsThreshold = 0`), every lag scores
exactly 1, which never exceeds the running `lastCorrelation` seeded at 1,
so no rising step is ever recorded and `bestOffset` stays `-1`. -/
theorem autoCorrelate_silence (d : PitchDetector) (n : ℕ) :
    autoCorrelate d (List.replicate n 0) = -1 := by
  rw [autoCorrelate]
  split_ifs with h
  · rfl
  · simp [correlationSearch, foldl_searchStep_zero]

/-!  Claim C1: output of a call that fills the history. -/

/-- C1: whenever the raw estimate passes the plausibility check and the
updated history holds exactly `historySize` entries, the call returns the
history's mean precisely when every entry lies strictly within
`pitchTolerance` of that mean, and `null` otherwise.  (The source divides
by `historySize`; under the fullness hypothesis this is the mean.) -/
theorem detectPitch_consistency_gate (d : PitchDetector) (buffer : List ℚ)
    (hpl : ¬ outsideRange (autoCorrelate d buffer))
    (hfull : (pushHist d.pitchHistory d.historySize (autoCorrelate d buffer)).length
        = d.historySize) :
    (detectPitch d buffer).2 =
      if ∀ freq ∈ pushHist d.pitchHistory d.historySize (autoCorrelate d buffer),
          |freq - histMean (pushHist d.pitchHistory d.historySize (autoCorrelate d buffer))|
            < d.pitchTolerance
      then some (histMean (pushHist d.pitchHistory d.historySize (autoCorrelate d buffer)))
      else none := by
  have hmean : histMean (pushHist d.pitchHistory d.historySize (autoCorrelate d buffer))
      = (pushHist d.pitchHistory d.historySize (autoCorrelate d buffer)).sum
        / (d.historySize : ℚ) := by
    rw [histMean, hfull]
  have hnl : ¬ (pushHist d.pitchHistory d.historySize (autoCorrelate d buffer)).length
      < d.historySize := by omega
  simp only [detectPitch]
  rw [if_neg hpl, if_neg hnl, hmean]
  split_ifs <;> rfl

lemma autoCorrelate_dPre_buf100 : autoCorrelate dPre buf100 = 100 :=
  autoCorrelate_d200_buf100

lemma dPre_inRange : ¬ outsideRange (autoCorrelate dPre buf100) := by
  rw [autoCorrelate_dPre_buf100]
  norm_num [outsideRange]

lemma dPre_full : (pushHist dPre.pitchHistory dPre.historySize
    (autoCorrelate dPre buf100)).length = dPre.historySize := by
  simp [pushHist, dPre, d200, PitchDetector.init]

theorem detectPitch_consistency_gate_witness :
    (¬ outsideRange (autoCorrelate dPre buf100) ∧
      (pushHist dPre.pitchHistory dPre.historySize (autoCorrelate dPre buf100)).length
        = dPre.historySize) ∧
    (detectPitch dPre buf100).2 =
      if ∀ freq ∈ pushHist dPre.pitchHistory dPre.historySize (autoCorrelate dPre buf100),
          |freq - histMean (pushHist dPre.pitchHistory dPre.historySize
            (autoCorrelate dPre buf100))| < dPre.pitchTolerance
      then some (histMean (pushHist dPre.pitchHistory dPre.historySize
        (autoCorrelate dPre buf100)))
      else none :=
  ⟨⟨dPre_inRange, dPre_full⟩,
    detectPitch_consistency_gate dPre buf100 dPre_inRange dPre_full⟩

/-!  Claim C9: the plausible range is inclusive at 60 and 1000. -/

lemma mem_pushHist (h : List ℚ) (n : ℕ) (f : ℚ) (hn : 0 < n) :
    f ∈ pushHist h n f := by
  simp only [pushHist]
  split_ifs with hlt
  · cases h with
    | nil => simp at hlt; omega
    | cons a t => simp
  · simp

/-- C9: a raw estimate of exactly 60 Hz or exactly 1000 Hz is not rejected
by the range check (`frequency < 60 || frequency > 1000` is strict at both
ends): the call takes the push path, and the estimate lands in the stored
history (the latter requires a positive `historySize`, else the push is
immediately evicted). -/
theorem plausible_bounds_inclusive (d : PitchDetector) (buffer : List ℚ)
    (hb : autoCorrelate d buffer = 60 ∨ autoCorrelate d buffer = 1000)
    (hsz : 0 < d.historySize) :
    (detectPitch d buffer).1.pitchHistory =
        pushHist d.pitchHistory d.historySize (autoCorrelate d buffer) ∧
    autoCorrelate d buffer ∈ (detectPitch d buffer).1.pitchHistory := by
  have hout : ¬ outsideRange (autoCorrelate d buffer) := by
    rcases hb with h | h <;> norm_num [outsideRange, h]
  have hhist : (detectPitch d buffer).1.pitchHistory =
      pushHist d.pitchHistory d.historySize (autoCorrelate d buffer) := by
    rw [detectPitch_state, update_pitchHistory]
    simp only [newHistory]
    rw [if_neg hout]
  exact ⟨hhist, hhist ▸ mem_pushHist _ _ _ hsz⟩

theorem plausible_bounds_inclusive_witness :
    (autoCorrelate d120 buf100 = 60 ∨ autoCorrelate d120 buf100 = 1000) ∧
      0 < d120.historySize ∧
      ((detectPitch d120 buf100).1.pitchHistory =
          pushHist d120.pitchHistory d120.historySize (autoCorrelate d120 buf100) ∧
        autoCorrelate d120 buf100 ∈ (detectPitch d120 buf100).1.pitchHistory) :=
  ⟨Or.inl autoCorrelate_d120_buf100, by simp [d120, PitchDetector.init],
    plausible_bounds_inclusive d120 buf100 (Or.inl autoCorrelate_d120_buf100)
      (by simp [d120, PitchDetector.init])⟩

/-!  Claim C2: no output before `historySize` consecutive plausible
estimates; an implausible estimate clears the history. -/

lemma detectPitch_clears {d : PitchDetector} {buffer : List ℚ}
    (h : outsideRange (autoCorrelate d buffer)) :
    detectPitch d buffer = ({ d with pitchHistory := [] }, none) := by
  simp [detectPitch, h]

lemma run_nonnull_streak (frames : List (List ℚ)) :
    ∀ (d : PitchDetector) (i : ℕ),
      (run d frames).getD i none ≠ none →
      d.historySize ≤ i + 1 + d.pitchHistory.length ∧
      ∀ j, j ≤ i → i < j + d.historySize →
        ¬ outsideRange (autoCorrelate d (frames.getD j [])) := by
  induction frames with
  | nil =>
    intro d i h
    simp [run] at h
  | cons b bs ih =>
    intro d i h
    cases i with
    | zero =>
      rw [run_cons, List.getD_cons_zero] at h
      obtain ⟨hout, hlen⟩ := detectPitch_ne_none h
      have hple := pushHist_length_le d.pitchHistory d.historySize (autoCorrelate d b)
      refine ⟨by omega, ?_⟩
      intro j hj hlt
      have hj0 : j = 0 := by omega
      subst hj0
      simpa using hout
    | succ i' =>
      rw [run_cons, List.getD_cons_succ] at h
      have ihres := ih ((detectPitch d b).1) i' h
      rw [detectPitch_state] at ihres
      simp only [update_pitchHistory, update_historySize,
        autoCorrelate_pitchHistory] at ihres
      obtain ⟨ih1, ih2⟩ := ihres
      have hnle := newHistory_length_le d b
      refine ⟨by omega, ?_⟩
      intro j hj hlt
      cases j with
      | zero =>
        rw [List.getD_cons_zero]
        intro hbad
        have hzero : newHistory d b = [] := by
          simp [newHistory, hbad]
        rw [hzero] at ih1
        simp at ih1
        omega
      | succ j' =>
        rw [List.getD_cons_succ]
        exact ih2 j' (by omega) (by omega)

/-- C2: starting from an empty history, a non-null output at frame `i`
requires at least `historySize` calls (`historySize ≤ i + 1`) and plausible
raw estimates at each of the last `historySize` frames; moreover a single
implausible raw estimate (the sentinel `-1` included) empties the history
entirely and yields `null`, so the requirement applies afresh after it. -/
theorem consecutive_plausible_required (d : PitchDetector)
    (frames : List (List ℚ)) (hempty : d.pitchHistory = []) (i : ℕ)
    (hne : (run d frames).getD i none ≠ none) :
    (d.historySize ≤ i + 1 ∧
      ∀ j, j ≤ i → i < j + d.historySize →
        ¬ outsideRange (autoCorrelate d (frames.getD j []))) ∧
    ∀ (e : PitchDetector) (buffer : List ℚ),
      outsideRange (autoCorrelate e buffer) →
      (detectPitch e buffer).1.pitchHistory = [] ∧
        (detectPitch e buffer).2 = none := by
  have h := run_nonnull_streak frames d i hne
  rw [hempty] at h
  simp only [List.length_nil] at h
  refine ⟨⟨by omega, h.2⟩, ?_⟩
  intro e buffer hb
  rw [detectPitch_clears hb]
  exact ⟨rfl, rfl⟩

lemma run_d200_getD4 :
    (run d200 [buf100, buf100, buf100, buf100, buf100]).getD 4 none ≠ none := by
  rw [run_d200_five]
  simp

theorem consecutive_plausible_required_witness :
    d200.pitchHistory = [] ∧
    (run d200 [buf100, buf100, buf100, buf100, buf100]).getD 4 none ≠ none ∧
    ((d200.historySize ≤ 4 + 1 ∧
      ∀ j, j ≤ 4 → 4 < j + d200.historySize →
        ¬ outsideRange (autoCorrelate d200
          ([buf100, buf100, buf100, buf100, buf100].getD j []))) ∧
    ∀ (e : PitchDetector) (buffer : List ℚ),
      outsideRange (autoCorrelate e buffer) →
      (detectPitch e buffer).1.pitchHistory = [] ∧
        (detectPitch e buffer).2 = none) :=
  ⟨rfl, run_d200_getD4,
    consecutive_plausible_required d200 _ rfl 4 run_d200_getD4⟩

/-!  Claim C7: the output stream is a function of the sample rate,
configuration and frames alone; the `audioContext` handle (the only
constructor argument besides the sample rate) is never consulted, and a
pure function of the remaining state admits no hidden nondeterminism. -/

lemma updAC_pitchHistory (d : PitchDetector) (c : AudioContextHandle) :
    ({ d with audioContext := c } : PitchDetector).pitchHistory =
      d.pitchHistory := rfl

lemma updAC_historySize (d : PitchDetector) (c : AudioContextHandle) :
    ({ d with audioContext := c } : PitchDetector).historySize =
      d.historySize := rfl

lemma updAC_pitchTolerance (d : PitchDetector) (c : AudioContextHandle) :
    ({ d with audioContext := c } : PitchDetector).pitchTolerance =
      d.pitchTolerance := rfl

lemma autoCorrelate_audioContext (d : PitchDetector) (c : AudioContextHandle)
    (buffer : List ℚ) :
    autoCorrelate { d with audioContext := c } buffer =
      autoCorrelate d buffer := rfl

lemma newHistory_audioContext (d : PitchDetector) (c : AudioContextHandle)
    (buffer : List ℚ) :
    newHistory { d with audioContext := c } buffer = newHistory d buffer := by
  simp only [newHistory, autoCorrelate_audioContext, updAC_pitchHistory,
    updAC_historySize]

lemma detectPitch_out_audioContext (d : PitchDetector)
    (c : AudioContextHandle) (buffer : List ℚ) :
    (detectPitch { d with audioContext := c } buffer).2 =
      (detectPitch d buffer).2 := by
  simp only [detectPitch, autoCorrelate_audioContext, updAC_pitchHistory,
    updAC_historySize, updAC_pitchTolerance]
  split_ifs <;> rfl

lemma detectPitch_fst_audioContext (d : PitchDetector)
    (c : AudioContextHandle) (buffer : List ℚ) :
    (detectPitch { d with audioContext := c } buffer).1 =
      { (detectPitch d buffer).1 with audioContext := c } := by
  rw [detectPitch_state, detectPitch_state, newHistory_audioContext]

lemma run_audioContext (frames : List (List ℚ)) :
    ∀ (d : PitchDetector) (c : AudioContextHandle),
      run { d with audioContext := c } frames = run d frames := by
  induction frames with
  | nil => intro d c; rfl
  | cons b bs ih =>
    intro d c
    rw [run_cons, run_cons, detectPitch_out_audioContext,
      detectPitch_fst_audioContext, ih]

/-- C7: two freshly constructed detectors with the same sample rate produce
the exact same output sequence on the same frame sequence, whatever their
`audioContext` arguments. -/
theorem run_deterministic (c₁ c₂ : AudioContextHandle) (sampleRate : ℚ)
    (frames : List (List ℚ)) :
    run (PitchDetector.init c₁ sampleRate) frames =
      run (PitchDetector.init c₂ sampleRate) frames := by
  have h : PitchDetector.init c₁ sampleRate =
      { PitchDetector.init c₂ sampleRate with audioContext := c₁ } := rfl
  rw [h, run_audioContext]

/-!  Claim C8: the history never exceeds `historySize`, across every
operation of the object, starting from construction. -/

/-- One call on the public surface of the detector object. -/
inductive DetectorOp where
  | frame (buffer : List ℚ)
  | reset
  | sensitivity (s : Settings)

/-- Apply one operation to the detector state. -/
def applyOp (d : PitchDetector) : DetectorOp → PitchDetector
  | .frame buffer => (detectPitch d buffer).1
  | .reset => d.reset
  | .sensitivity s => setSensitivity d s

/-- Apply a sequence of operations to the detector state. -/
def applyOps (d : PitchDetector) (ops : List DetectorOp) : PitchDetector :=
  ops.foldl applyOp d

lemma setSensitivity_pitchHistory (d : PitchDetector) (s : Settings) :
    (setSensitivity d s).pitchHistory = [] := rfl

lemma newHistory_length_cap (d : PitchDetector) (buffer : List ℚ)
    (h : d.pitchHistory.length ≤ d.historySize) :
    (newHistory d buffer).length ≤ d.historySize := by
  simp only [newHistory]
  split_ifs
  · simp
  · exact pushHist_length_cap _ _ _ h

lemma applyOp_inv (d : PitchDetector) (op : DetectorOp)
    (h : d.pitchHistory.length ≤ d.historySize) :
    (applyOp d op).pitchHistory.length ≤ (applyOp d op).historySize := by
  cases op with
  | frame buffer =>
    simp only [applyOp]
    rw [detectPitch_state]
    simp only [update_pitchHistory, update_historySize]
    exact newHistory_length_cap d buffer h
  | reset => simp [applyOp, PitchDetector.reset]
  | sensitivity s =>
    simp only [applyOp]
    rw [setSensitivity_pitchHistory]
    simp

lemma applyOps_inv (ops : List DetectorOp) :
    ∀ d : PitchDetector, d.pitchHistory.length ≤ d.historySize →
      (applyOps d ops).pitchHistory.length ≤ (applyOps d ops).historySize := by
  induction ops with
  | nil => intro d h; exact h
  | cons op ops ih => intro d h; exact ih (applyOp d op) (applyOp_inv d op h)

/-- C8: starting from a freshly constructed detector (empty history), every
sequence of `detectPitch` / `reset` / `setSensitivity` calls leaves the
history with at most `historySize` entries. -/
theorem pitchHistory_bounded (c : AudioContextHandle) (sampleRate : ℚ)
    (ops : List DetectorOp) :
    (applyOps (PitchDetector.init c sampleRate) ops).pitchHistory.length ≤
      (applyOps (PitchDetector.init c sampleRate) ops).historySize :=
  applyOps_inv ops _ (by simp [PitchDetector.init])

/-!  Claim C5: configuration validation.  The source performs none: the
constructor takes no thresholds at all, and `setSensitivity` stores any
supplied value unchecked.  With `historySize = 0` a subsequent plausible
frame reaches the consistency branch with an *empty* full history, where
the source calls `reduce` on an empty array without an initial value — a
`TypeError`, i.e. garbage rather than a distinguished configuration
error. -/
theorem setSensitivity_accepts_invalid (d : PitchDetector) :
    (setSensitivity d { historySize := some 0 }).historySize = 0 ∧
    (setSensitivity d { rmsThreshold := some (-1) }).rmsThreshold = -1 ∧
    ((setSensitivity d { historySize := some 0 }).pitchHistory = [] ∧
      ¬ ((pushHist (setSensitivity d { historySize := some 0 }).pitchHistory
            (setSensitivity d { historySize := some 0 }).historySize 100).length
          < (setSensitivity d { historySize := some 0 }).historySize)) := by
  refine ⟨rfl, rfl, rfl, ?_⟩
  have h0 : (setSensitivity d { historySize := some 0 }).historySize = 0 := rfl
  rw [setSensitivity_pitchHistory, h0]
  simp [pushHist]

/-!  Claim C3: the lag range of the search.  The loop bound is strict
(`offset < MAX_SAMPLES`), so the lag `N/2` itself is never visited,
contrary to the spec's inclusive `1 .. N/2`. -/

lemma corrAt_eq_finset (buffer : List ℚ) (k : ℕ) (m : ℕ) :
    corrAt buffer m k =
      ∑ i ∈ Finset.range m, |buffer.getD i 0 - buffer.getD (i + k) 0| := by
  induction m with
  | zero => simp [corrAt]
  | succ m ih =>
    rw [Finset.sum_range_succ, ← ih]
    simp [corrAt, List.range_succ]

/-- C3 amended: the search visits exactly the lags `1 ≤ k < ⌊N/2⌋`
(the bound `k = N/2` itself is excluded), and at each visited lag the score
is `1 − (Σ_{i=0}^{⌊N/2⌋−1} |x[i] − x[i+k]|) / ⌊N/2⌋`, which for even `N` is
the spec's formula. -/
theorem search_lags_and_score (buffer : List ℚ) (k : ℕ) :
    (k ∈ offsetsSearched (buffer.length / 2) ↔
      1 ≤ k ∧ k < buffer.length / 2) ∧
    scoreAt buffer (buffer.length / 2) k =
      1 - (∑ i ∈ Finset.range (buffer.length / 2),
            |buffer.getD i 0 - buffer.getD (i + k) 0|)
          / ((buffer.length / 2 : ℕ) : ℚ) := by
  constructor
  · simp only [offsetsSearched, List.mem_range'_1]
    omega
  · simp only [scoreAt, corrAt_eq_finset]

lemma autoCorrelate_d200_buf4 : autoCorrelate d200 buf4 = -1 := by
  norm_num [autoCorrelate, correlationSearch, offsetsSearched, searchStep,
    scoreAt, corrAt, rmsSq, buf4, d200, PitchDetector.init,
    List.range_succ, List.range']

lemma autoCorrelateSpec_d200_buf4 : autoCorrelateSpec d200 buf4 = 50 := by
  norm_num [autoCorrelateSpec, correlationSearchSpec, offsetsSpec, searchStep,
    scoreAt, corrAt, rmsSq, buf4, d200, PitchDetector.init,
    List.range_succ, List.range']

/-- C3 counterexample: on the 8-sample frame `buf4` the lag `4 = N/2` lies
in the claimed range but is never searched; the code finds nothing
(`-1`), while the spec-mandated inclusive search returns 50 Hz. -/
theorem lag_range_counterexample :
    (1 ≤ 4 ∧ 4 ≤ buf4.length / 2) ∧
    4 ∉ offsetsSearched (buf4.length / 2) ∧
    autoCorrelate d200 buf4 = -1 ∧
    autoCorrelateSpec d200 buf4 = 50 := by
  refine ⟨⟨by norm_num, by norm_num [buf4]⟩, ?_,
    autoCorrelate_d200_buf4, autoCorrelateSpec_d200_buf4⟩
  norm_num [offsetsSearched, buf4, List.mem_range'_1]

/-!  Claim C4: a frame whose RMS equals `rmsThreshold` exactly.  The gate
comparison is strict, so such a frame is *not* silenced: the search runs
and can return a pitch. -/

lemma rmsSq_bufRms : rmsSq bufRms = 25/49 := by
  norm_num [rmsSq, bufRms]

lemma autoCorrelate_dRms_bufRms : autoCorrelate dRms bufRms = 100 := by
  have habs : |(6:ℚ)/7| = 6/7 := abs_of_nonneg (by norm_num)
  norm_num [autoCorrelate, correlationSearch, offsetsSearched, searchStep,
    scoreAt, corrAt, rmsSq, bufRms, dRms, d200, PitchDetector.init,
    List.range_succ, List.range', habs]

/-- C4 counterexample: `bufRms` has RMS exactly `5/7 = dRms.rmsThreshold`,
yet `autoCorrelate` returns the raw estimate 100 Hz instead of none. -/
theorem rms_boundary_counterexample :
    Real.sqrt ((rmsSq bufRms : ℝ)) = ((dRms.rmsThreshold : ℚ) : ℝ) ∧
    autoCorrelate dRms bufRms = 100 ∧
    autoCorrelate dRms bufRms ≠ -1 := by
  refine ⟨?_, autoCorrelate_dRms_bufRms, ?_⟩
  · rw [rmsSq_bufRms]
    have h1 : dRms.rmsThreshold = 5/7 := rfl
    rw [h1]
    have h2 : (((25:ℚ)/49 : ℚ) : ℝ) = ((5:ℝ)/7) ^ 2 := by
      push_cast
      norm_num
    rw [h2, Real.sqrt_sq (by norm_num : (0:ℝ) ≤ 5/7)]
    push_cast
    norm_num
  · rw [autoCorrelate_dRms_bufRms]
    norm_num

/-- C4 amended: a frame whose RMS equals `rmsThreshold` exactly passes the
silence gate (the `<` is strict, so only frames strictly below the
threshold are silenced) and proceeds to the correlation search. -/
theorem rms_at_threshold_passes_gate (d : PitchDetector) (buffer : List ℚ)
    (heq : rmsSq buffer = d.rmsThreshold ^ 2) :
    autoCorrelate d buffer = correlationSearch d buffer := by
  have h : ¬ (0 < d.rmsThreshold ∧ rmsSq buffer < d.rmsThreshold ^ 2) := by
    rintro ⟨-, hlt⟩
    rw [heq] at hlt
    exact lt_irrefl _ hlt
  simp only [autoCorrelate]
  rw [if_neg h]

lemma dRms_rmsEq : rmsSq bufRms = dRms.rmsThreshold ^ 2 := by
  rw [rmsSq_bufRms]
  have h : dRms.rmsThreshold = 5/7 := rfl
  rw [h]
  norm_num

theorem rms_at_threshold_passes_gate_witness :
    rmsSq bufRms = dRms.rmsThreshold ^ 2 ∧
    autoCorrelate dRms bufRms = correlationSearch dRms bufRms :=
  ⟨dRms_rmsEq, rms_at_threshold_passes_gate dRms bufRms dRms_rmsEq⟩

/-!  Claim C10: every buffer access of the search is in bounds. -/

/-- C10: for a frame of length at least 2, every searched offset
(`1 ≤ k < ⌊N/2⌋`) and summation index (`i < ⌊N/2⌋`) access position
`i + k ≤ N - 1`, inside the frame. -/
theorem autoCorrelate_index_bounds (buffer : List ℚ) (k i : ℕ)
    (hn : 2 ≤ buffer.length)
    (hk : k ∈ offsetsSearched (buffer.length / 2))
    (hi : i < buffer.length / 2) :
    i + k ≤ buffer.length - 1 := by
  simp only [offsetsSearched, List.mem_range'_1] at hk
  omega

lemma buf100_len : (2:ℕ) ≤ buf100.length := by norm_num [buf100]

lemma buf100_off : 3 ∈ offsetsSearched (buf100.length / 2) := by
  norm_num [offsetsSearched, buf100, List.mem_range'_1]

lemma buf100_idx : 3 < buf100.length / 2 := by norm_num [buf100]

theorem autoCorrelate_index_bounds_witness :
    2 ≤ buf100.length ∧ 3 ∈ offsetsSearched (buf100.length / 2) ∧
    3 < buf100.length / 2 ∧ 3 + 3 ≤ buf100.length - 1 :=
  ⟨buf100_len, buf100_off, buf100_idx,
    autoCorrelate_index_bounds buf100 3 3 buf100_len buf100_off buf100_idx⟩
